import Mathlib

/-!
Shallow embedding of the insights engine of the Mental Wellness API
(src/main.py): compute_insights, the suggestion selection of
GET /api/suggestions, the summary assembly of GET /api/insights, and the
static suggestion catalog SUGGESTION_LIBRARY.

Modelling conventions:
* Timestamps (logged_at, now) are integers: seconds since the Unix epoch, UTC.
  The reference instant now is an explicit argument (the code reads
  datetime.utcnow(); the records the code fetches from the store are the
  logs argument here).
* A UTC calendar date is modelled by its day number floor(seconds / 86400).
  ISO 8601 date strings YYYY-MM-DD compare exactly like day numbers, so
  sorting by date string is modelled as sorting by day number.
* Python floats are modelled by exact rationals; round(x, 2) is modelled as
  rounding half up to 2 decimals (the spec leaves the tie policy open).
-/

/-- A mood record as stored in the moodlog collection: the mood value and
the logged_at timestamp (seconds since the Unix epoch, UTC). -/
structure MoodRecord where
  mood : ℕ
  loggedAt : ℤ
deriving DecidableEq

/-- UTC day number of a record: logged_at floor-divided by 86400 seconds. -/
def dateOf (r : MoodRecord) : ℤ := r.loggedAt.fdiv 86400

/-- UTC day number of the reference instant (datetime.utcnow().date()). -/
def todayOf (now : ℤ) : ℤ := now.fdiv 86400

/-- round(x, 2): rounding to two decimals, half up on exact rationals. -/
def round2 (q : ℚ) : ℚ := ((⌊q * 100 + 1 / 2⌋ : ℤ) : ℚ) / 100

/-- One entry of by_day: a date and the rounded mean mood of that date. -/
structure ByDayEntry where
  date : ℤ
  avg : ℚ
deriving DecidableEq

/-- The result dictionary of compute_insights. -/
structure InsightsResult where
  avg_mood : Option ℚ
  entries : ℕ
  streak : ℕ
  by_day : List ByDayEntry
deriving DecidableEq

/-- by.setdefault(d, []).append(m): append m to the group keyed d,
creating the group at the end of the association list if absent. -/
def insertMood : List (ℤ × List ℕ) → ℤ → ℕ → List (ℤ × List ℕ)
  | [], d, m => [(d, [m])]
  | (k, v) :: rest, d, m =>
      if k = d then (k, v ++ [m]) :: rest else (k, v) :: insertMood rest d m

/-- The grouping loop of compute_insights: mood values grouped by day. -/
def groupByDay (logs : List MoodRecord) : List (ℤ × List ℕ) :=
  logs.foldl (fun acc l => insertMood acc (dateOf l) l.mood) []

/-- Mean of a list of mood values, rounded to 2 decimals. -/
def meanRounded (v : List ℕ) : ℚ := round2 ((v.sum : ℚ) / v.length)

/-- The order used by sorted(by.items()): keys are distinct, so the
lexicographic order on the pairs is the order on the keys. -/
def dayLE (a b : ℤ × List ℕ) : Prop := a.1 ≤ b.1

instance : DecidableRel dayLE := fun a b => inferInstanceAs (Decidable (a.1 ≤ b.1))

instance : IsTotal (ℤ × List ℕ) dayLE := ⟨fun a b => le_total a.1 b.1⟩

instance : IsTrans (ℤ × List ℕ) dayLE := ⟨fun _ _ _ h h2 => le_trans h h2⟩

/-- The by_day list: groups sorted ascending by date, each mapped to the
rounded mean of its mood values. -/
def byDayOf (logs : List MoodRecord) : List ByDayEntry :=
  (List.insertionSort dayLE (groupByDay logs)).map fun kv => ⟨kv.1, meanRounded kv.2⟩

/-- The streak loop: while d in days_set: streak += 1; d -= 1.
The fuel argument bounds the recursion; with fuel = number of distinct
dates the loop has provably reached its first missing date. -/
def streakAux (ds : List ℤ) : ℤ → ℕ → ℕ
  | _, 0 => 0
  | d, fuel + 1 => if d ∈ ds then streakAux ds (d - 1) fuel + 1 else 0

/-- The streak computed by compute_insights for the given records and
reference instant. -/
def streakOf (logs : List MoodRecord) (now : ℤ) : ℕ :=
  streakAux (logs.map dateOf) (todayOf now) (logs.map dateOf).dedup.length

/-- compute_insights over the fetched records and the reference instant. -/
def computeInsights (logs : List MoodRecord) (now : ℤ) : InsightsResult :=
  if logs = [] then
    { avg_mood := none, entries := 0, streak := 0, by_day := [] }
  else
    { avg_mood := some (round2 (((logs.map MoodRecord.mood).sum : ℚ) / logs.length))
      entries := logs.length
      streak := streakOf logs now
      by_day := byDayOf logs }

/-- The mood values of the records that fall on day d, in input order. -/
def moodsOn (logs : List MoodRecord) (d : ℤ) : List ℕ :=
  (logs.filter fun l => decide (dateOf l = d)).map MoodRecord.mood

/-- Association-list lookup mirroring dictionary access on the grouping table. -/
def lookupDay (d : ℤ) : List (ℤ × List ℕ) → Option (List ℕ)
  | [] => none
  | (k, v) :: rest => if k = d then some v else lookupDay d rest

/-- Combine an optional existing group with newly appended moods. -/
def optAppend (o : Option (List ℕ)) (ms : List ℕ) : Option (List ℕ) :=
  match o, ms with
  | none, [] => none
  | o, ms => some (o.getD [] ++ ms)

/-- One entry of the static suggestion catalog. -/
structure SuggestionItem where
  id : String
  title : String
  duration : ℕ
  type : String
deriving DecidableEq

/-- The static suggestion catalog SUGGESTION_LIBRARY of src/main.py. -/
def SUGGESTION_LIBRARY : List SuggestionItem :=
  [ { id := "breath-2", title := "Try this quick breathing reset",
      duration := 2, type := "breathing" },
    { id := "meditate-5", title := "Mini meditation",
      duration := 5, type := "meditation" },
    { id := "walk-5", title := "Micro-walk",
      duration := 5, type := "walk" },
    { id := "affirm-1", title := "Affirmation card",
      duration := 1, type := "affirmation" } ]

/-- The response shape of GET /api/suggestions. -/
structure SuggestionResponse where
  reason : String
  items : List SuggestionItem
  insights : InsightsResult
deriving DecidableEq

/-- The rule-based selection of GET /api/suggestions, applied to an
already computed insights result. -/
def getSuggestions (ins : InsightsResult) : SuggestionResponse :=
  match ins.avg_mood with
  | none =>
      { reason := "Suggested to help you start your routine",
        items := SUGGESTION_LIBRARY.take 2, insights := ins }
  | some a =>
      if a < 3 ∧ 3 ≤ ins.entries then
        { reason := "Suggested because your average mood has been low this week",
          items := [SUGGESTION_LIBRARY.get ⟨0, by decide⟩,
                    SUGGESTION_LIBRARY.get ⟨1, by decide⟩],
          insights := ins }
      else
        { reason := "Suggested based on your recent logs",
          items := [SUGGESTION_LIBRARY.get ⟨2, by decide⟩,
                    SUGGESTION_LIBRARY.get ⟨3, by decide⟩],
          insights := ins }

/-- days = 7 if range == "7d" else 30, from GET /api/insights. -/
def windowDays (range : String) : ℕ := if range = "7d" then 7 else 30

/-- The streak acknowledgement sentence of the summary. -/
def streakMsg (n : ℕ) : String := "Nice streak: " ++ toString n ++ " days in a row."

/-- The response shape of GET /api/insights. -/
structure InsightsResponse where
  kpis : InsightsResult
  ai_summary : List String
  suggested_actions : List String
deriving DecidableEq

/-- The summary and actions assembly of GET /api/insights, applied to the
records the endpoint fetched and the reference instant. -/
def insightsEndpoint (logs : List MoodRecord) (now : ℤ) : InsightsResponse :=
  let data := computeInsights logs now
  match data.avg_mood with
  | none =>
      { kpis := data,
        ai_summary := ["No logs yet. Start with a 2-minute breathing reset."],
        suggested_actions := ["Set a daily reminder at a calm time."] }
  | some a =>
      let line1 := if a < 3 then "Mood has been on the lower side recently."
                   else "You\x27re maintaining a stable mood trend."
      let act := if a < 3 then "Try a daily 5-minute mini meditation for 3 days."
                 else "Keep up the short check-ins and a micro-walk."
      { kpis := data,
        ai_summary := [line1] ++ (if 3 ≤ data.streak then [streakMsg data.streak] else []),
        suggested_actions := [act] }


/-! ### Helper lemmas about the grouping association list -/

lemma insertMood_keys (acc : List (ℤ × List ℕ)) (d : ℤ) (m : ℕ) :
    (insertMood acc d m).map Prod.fst =
      if d ∈ acc.map Prod.fst then acc.map Prod.fst
      else acc.map Prod.fst ++ [d] := by
  induction acc with
  | nil => simp [insertMood]
  | cons p rest ih =>
    obtain ⟨k, v⟩ := p
    by_cases hk : k = d
    · subst hk
      simp [insertMood]
    · have hdk : ¬ d = k := fun hc => hk hc.symm
      simp only [insertMood, if_neg hk, List.map_cons, ih, List.mem_cons]
      by_cases hmem : d ∈ rest.map Prod.fst
      · simp [hmem, hdk]
      · simp [hmem, hdk]

lemma insertMood_keys_nodup (acc : List (ℤ × List ℕ)) (d : ℤ) (m : ℕ)
    (h : (acc.map Prod.fst).Nodup) : ((insertMood acc d m).map Prod.fst).Nodup := by
  rw [insertMood_keys]
  by_cases hmem : d ∈ acc.map Prod.fst
  · simpa [hmem] using h
  · simp only [hmem, if_false]
    refine List.Nodup.append h (List.nodup_singleton d) ?_
    intro x hx hx2
    simp only [List.mem_singleton] at hx2
    exact hmem (hx2 ▸ hx)

lemma lookupDay_insertMood_self (acc : List (ℤ × List ℕ)) (d : ℤ) (m : ℕ) :
    lookupDay d (insertMood acc d m) = some ((lookupDay d acc).getD [] ++ [m]) := by
  induction acc with
  | nil => simp [insertMood, lookupDay]
  | cons p rest ih =>
    obtain ⟨k, v⟩ := p
    by_cases hk : k = d
    · subst hk
      simp [insertMood, lookupDay]
    · simp [insertMood, hk, lookupDay, ih]

lemma lookupDay_insertMood_ne (acc : List (ℤ × List ℕ)) (d m : ℤ) (mv : ℕ)
    (h : d ≠ m) : lookupDay d (insertMood acc m mv) = lookupDay d acc := by
  have hmd : m ≠ d := fun hc => h hc.symm
  induction acc with
  | nil => simp [insertMood, lookupDay, hmd]
  | cons p rest ih =>
    obtain ⟨k, v⟩ := p
    by_cases hk : k = m
    · have hkd : k ≠ d := fun hc => hmd (hk.symm.trans hc)
      simp only [insertMood, if_pos hk, lookupDay, if_neg hkd]
    · simp only [insertMood, if_neg hk, lookupDay]
      by_cases hkd : k = d
      · simp [hkd]
      · simp [hkd, ih]

lemma lookupDay_eq_none (d : ℤ) (l : List (ℤ × List ℕ)) :
    lookupDay d l = none ↔ d ∉ l.map Prod.fst := by
  induction l with
  | nil => simp [lookupDay]
  | cons p rest ih =>
    obtain ⟨k, v⟩ := p
    by_cases hk : k = d
    · subst hk
      simp [lookupDay]
    · have hdk : ¬ d = k := fun hc => hk hc.symm
      simp only [lookupDay, if_neg hk, List.map_cons, List.mem_cons, not_or]
      constructor
      · intro hn
        exact ⟨hdk, ih.mp hn⟩
      · intro hn
        exact ih.mpr hn.2

lemma lookupDay_of_mem (l : List (ℤ × List ℕ)) (h : (l.map Prod.fst).Nodup)
    (k : ℤ) (v : List ℕ) (hm : (k, v) ∈ l) : lookupDay k l = some v := by
  induction l with
  | nil => simp at hm
  | cons p rest ih =>
    obtain ⟨k2, v2⟩ := p
    simp only [List.map_cons, List.nodup_cons] at h
    rcases List.mem_cons.mp hm with heq | hrest
    · cases heq.symm
      simp [lookupDay]
    · have hk2 : k2 ≠ k := by
        intro hc
        subst hc
        exact h.1 (List.mem_map.mpr ⟨(k2, v), hrest, rfl⟩)
      simp [lookupDay, hk2, ih h.2 hrest]

lemma optAppend_nil (o : Option (List ℕ)) : optAppend o [] = o := by
  cases o <;> simp [optAppend]

lemma moodsOn_cons (l : MoodRecord) (rest : List MoodRecord) (d : ℤ) :
    moodsOn (l :: rest) d =
      if dateOf l = d then l.mood :: moodsOn rest d else moodsOn rest d := by
  by_cases hd : dateOf l = d
  · simp [moodsOn, List.filter_cons, hd]
  · simp [moodsOn, List.filter_cons, hd]

lemma groupFold_lookup (logs : List MoodRecord) :
    ∀ (acc : List (ℤ × List ℕ)) (d : ℤ),
      lookupDay d (logs.foldl (fun acc l => insertMood acc (dateOf l) l.mood) acc) =
        optAppend (lookupDay d acc) (moodsOn logs d) := by
  induction logs with
  | nil =>
    intro acc d
    simp [moodsOn, optAppend_nil]
  | cons l rest ih =>
    intro acc d
    rw [List.foldl_cons, ih, moodsOn_cons]
    by_cases hd : dateOf l = d
    · rw [if_pos hd, hd, lookupDay_insertMood_self]
      cases hlook : lookupDay d acc with
      | none => simp [optAppend]
      | some v => simp [optAppend]
    · rw [if_neg hd, lookupDay_insertMood_ne acc d (dateOf l) l.mood (fun hc => hd hc.symm)]

lemma groupByDay_lookup (logs : List MoodRecord) (d : ℤ) :
    lookupDay d (groupByDay logs) = optAppend none (moodsOn logs d) := by
  rw [groupByDay, groupFold_lookup]
  rfl

lemma groupByDay_lookup_of_day (logs : List MoodRecord) (d : ℤ)
    (h : ∃ r ∈ logs, dateOf r = d) :
    lookupDay d (groupByDay logs) = some (moodsOn logs d) := by
  rw [groupByDay_lookup]
  obtain ⟨r, hr, hrd⟩ := h
  have hne : moodsOn logs d ≠ [] := by
    intro hc
    have : r.mood ∈ moodsOn logs d := by
      apply List.mem_map.mpr
      refine ⟨r, ?_, rfl⟩
      apply List.mem_filter.mpr
      exact ⟨hr, by simp [hrd]⟩
    rw [hc] at this
    simp at this
  cases hms : moodsOn logs d with
  | nil => exact absurd hms hne
  | cons a as => simp [optAppend]

lemma groupByDay_keys_mem (logs : List MoodRecord) (d : ℤ) :
    d ∈ (groupByDay logs).map Prod.fst ↔ ∃ r ∈ logs, dateOf r = d := by
  constructor
  · intro hmem
    by_contra hno
    have hempty : moodsOn logs d = [] := by
      simp only [moodsOn, List.map_eq_nil_iff, List.filter_eq_nil_iff]
      intro r hr
      simp only [decide_eq_true_eq]
      intro hc
      exact hno ⟨r, hr, hc⟩
    have : lookupDay d (groupByDay logs) = none := by
      rw [groupByDay_lookup, hempty]
      rfl
    exact (lookupDay_eq_none d (groupByDay logs)).mp this hmem
  · intro h
    have := groupByDay_lookup_of_day logs d h
    by_contra hno
    rw [(lookupDay_eq_none d (groupByDay logs)).mpr hno] at this
    exact Option.noConfusion this

lemma groupFold_keys_nodup (logs : List MoodRecord) :
    ∀ acc : List (ℤ × List ℕ), (acc.map Prod.fst).Nodup →
      (((logs.foldl (fun acc l => insertMood acc (dateOf l) l.mood) acc)).map Prod.fst).Nodup := by
  induction logs with
  | nil => intro acc h; simpa using h
  | cons l rest ih =>
    intro acc h
    rw [List.foldl_cons]
    exact ih _ (insertMood_keys_nodup acc (dateOf l) l.mood h)

lemma groupByDay_keys_nodup (logs : List MoodRecord) :
    ((groupByDay logs).map Prod.fst).Nodup :=
  groupFold_keys_nodup logs [] (by simp)

lemma groupByDay_mem_moods (logs : List MoodRecord) (k : ℤ) (v : List ℕ)
    (hm : (k, v) ∈ groupByDay logs) : v = moodsOn logs k := by
  have hk : lookupDay k (groupByDay logs) = some v :=
    lookupDay_of_mem _ (groupByDay_keys_nodup logs) k v hm
  have hday : ∃ r ∈ logs, dateOf r = k := by
    apply (groupByDay_keys_mem logs k).mp
    exact List.mem_map.mpr ⟨(k, v), hm, rfl⟩
  have := groupByDay_lookup_of_day logs k hday
  rw [hk] at this
  exact (Option.some.injEq _ _ ▸ this : v = moodsOn logs k)

/-! ### Helper lemmas about by_day -/

lemma byDayOf_dates (logs : List MoodRecord) :
    (byDayOf logs).map ByDayEntry.date =
      (List.insertionSort dayLE (groupByDay logs)).map Prod.fst := by
  simp only [byDayOf, List.map_map]
  rfl

lemma byDayOf_sorted (logs : List MoodRecord) :
    ((byDayOf logs).map ByDayEntry.date).Sorted (· < ·) := by
  rw [byDayOf_dates]
  have hs : (List.insertionSort dayLE (groupByDay logs)).Sorted dayLE :=
    List.sorted_insertionSort dayLE (groupByDay logs)
  have hle : ((List.insertionSort dayLE (groupByDay logs)).map Prod.fst).Sorted (· ≤ ·) := by
    rw [List.Sorted, List.pairwise_map]
    exact hs
  have hperm : List.Perm ((List.insertionSort dayLE (groupByDay logs)).map Prod.fst)
      ((groupByDay logs).map Prod.fst) :=
    (List.perm_insertionSort dayLE (groupByDay logs)).map Prod.fst
  have hnd : ((List.insertionSort dayLE (groupByDay logs)).map Prod.fst).Nodup :=
    (hperm.nodup_iff).mpr (groupByDay_keys_nodup logs)
  exact hle.lt_of_le hnd

lemma byDayOf_mem_dates (logs : List MoodRecord) (d : ℤ) :
    d ∈ (byDayOf logs).map ByDayEntry.date ↔ ∃ r ∈ logs, dateOf r = d := by
  have hp : List.Perm ((List.insertionSort dayLE (groupByDay logs)).map Prod.fst)
      ((groupByDay logs).map Prod.fst) :=
    (List.perm_insertionSort dayLE (groupByDay logs)).map Prod.fst
  rw [byDayOf_dates, hp.mem_iff]
  exact groupByDay_keys_mem logs d

lemma byDayOf_avg (logs : List MoodRecord) :
    ∀ e ∈ byDayOf logs, e.avg = meanRounded (moodsOn logs e.date) := by
  intro e he
  obtain ⟨kv, hkv, rfl⟩ := List.mem_map.mp he
  have hmem : kv ∈ groupByDay logs := (List.mem_insertionSort dayLE).mp hkv
  obtain ⟨k, v⟩ := kv
  have hv : v = moodsOn logs k := groupByDay_mem_moods logs k v hmem
  simp [hv]

lemma byDayOf_length (logs : List MoodRecord) :
    (byDayOf logs).length = (logs.map dateOf).dedup.length := by
  have h1 : (byDayOf logs).length = ((groupByDay logs).map Prod.fst).length := by
    simp [byDayOf, (List.perm_insertionSort dayLE (groupByDay logs)).length_eq]
  have hsetEq : ((groupByDay logs).map Prod.fst).toFinset = (logs.map dateOf).toFinset := by
    ext d
    rw [List.mem_toFinset, List.mem_toFinset, groupByDay_keys_mem]
    exact List.mem_map.symm
  have h2 : ((groupByDay logs).map Prod.fst).length =
      ((groupByDay logs).map Prod.fst).toFinset.card :=
    (List.toFinset_card_of_nodup (groupByDay_keys_nodup logs)).symm
  rw [h1, h2, hsetEq, List.card_toFinset]

/-! ### Helper lemmas about the streak loop -/

lemma streakAux_le (ds : List ℤ) : ∀ (fuel : ℕ) (d : ℤ), streakAux ds d fuel ≤ fuel := by
  intro fuel
  induction fuel with
  | zero => intro d; simp [streakAux]
  | succ n ih =>
    intro d
    simp only [streakAux]
    by_cases hd : d ∈ ds
    · rw [if_pos hd]
      exact Nat.succ_le_succ (ih (d - 1))
    · rw [if_neg hd]
      exact Nat.zero_le _

lemma streakAux_mem (ds : List ℤ) : ∀ (fuel : ℕ) (d : ℤ) (i : ℕ),
    i < streakAux ds d fuel → (d - i) ∈ ds := by
  intro fuel
  induction fuel with
  | zero => intro d i h; simp [streakAux] at h
  | succ n ih =>
    intro d i h
    simp only [streakAux] at h
    by_cases hd : d ∈ ds
    · rw [if_pos hd] at h
      cases i with
      | zero => simpa using hd
      | succ j =>
        have hj : j < streakAux ds (d - 1) n := Nat.lt_of_succ_lt_succ h
        have hmem := ih (d - 1) j hj
        have heq : d - (↑(j + 1) : ℤ) = (d - 1) - ↑j := by push_cast; ring
        rw [heq]
        exact hmem
    · rw [if_neg hd] at h
      exact absurd h (Nat.not_lt_zero i)

lemma streakAux_stop (ds : List ℤ) : ∀ (fuel : ℕ) (d : ℤ),
    streakAux ds d fuel < fuel → (d - streakAux ds d fuel) ∉ ds := by
  intro fuel
  induction fuel with
  | zero => intro d h; exact absurd h (Nat.not_lt_zero _)
  | succ n ih =>
    intro d h
    by_cases hd : d ∈ ds
    · simp only [streakAux, if_pos hd] at h ⊢
      have hlt : streakAux ds (d - 1) n < n := Nat.lt_of_succ_lt_succ h
      have hstop := ih (d - 1) hlt
      have heq : d - (↑(streakAux ds (d - 1) n + 1) : ℤ) = (d - 1) - ↑(streakAux ds (d - 1) n) := by
        push_cast; ring
      rw [heq]
      exact hstop
    · simp only [streakAux, if_neg hd, Nat.cast_zero, sub_zero]
      exact hd

lemma run_pigeonhole (l : List ℤ) (d : ℤ)
    (h : ∀ i : ℕ, i < l.dedup.length → (d - i) ∈ l) :
    (d - l.dedup.length) ∉ l := by
  intro hmem
  have hsub : (Finset.range (l.dedup.length + 1)).image (fun i : ℕ => d - i) ⊆ l.toFinset := by
    intro x hx
    obtain ⟨i, hi, rfl⟩ := Finset.mem_image.mp hx
    rw [List.mem_toFinset]
    rcases Nat.lt_succ_iff_lt_or_eq.mp (Finset.mem_range.mp hi) with hlt | heq
    · exact h i hlt
    · subst heq
      exact hmem
  have hinj : Set.InjOn (fun i : ℕ => d - (i : ℤ)) (Finset.range (l.dedup.length + 1)) := by
    intro a _ b _ hab
    simp only at hab
    exact_mod_cast sub_right_inj.mp hab
  have hcard : ((Finset.range (l.dedup.length + 1)).image (fun i : ℕ => d - i)).card =
      l.dedup.length + 1 := by
    rw [Finset.card_image_of_injOn hinj, Finset.card_range]
  have hle : l.dedup.length + 1 ≤ l.toFinset.card := hcard ▸ Finset.card_le_card hsub
  rw [List.card_toFinset] at hle
  omega

lemma streakOf_spec (logs : List MoodRecord) (now : ℤ) :
    (∀ i : ℕ, i < streakOf logs now → (todayOf now - i) ∈ logs.map dateOf)
      ∧ (todayOf now - streakOf logs now) ∉ logs.map dateOf := by
  have hdef : streakOf logs now =
      streakAux (logs.map dateOf) (todayOf now) (logs.map dateOf).dedup.length := rfl
  have hle := streakAux_le (logs.map dateOf) (logs.map dateOf).dedup.length (todayOf now)
  constructor
  · intro i hi
    rw [hdef] at hi
    exact streakAux_mem (logs.map dateOf) (logs.map dateOf).dedup.length (todayOf now) i hi
  · rcases Nat.lt_or_ge (streakAux (logs.map dateOf) (todayOf now)
        (logs.map dateOf).dedup.length) (logs.map dateOf).dedup.length with hlt | hge
    · rw [hdef]
      exact streakAux_stop (logs.map dateOf) (logs.map dateOf).dedup.length (todayOf now) hlt
    · have heq : streakOf logs now = (logs.map dateOf).dedup.length := by
        rw [hdef]
        exact le_antisymm hle hge
      rw [heq]
      apply run_pigeonhole
      intro i hi
      apply streakAux_mem (logs.map dateOf) (logs.map dateOf).dedup.length (todayOf now) i
      rw [← hdef, heq]
      exact hi

lemma computeInsights_streak (logs : List MoodRecord) (now : ℤ) :
    (computeInsights logs now).streak = streakOf logs now := by
  by_cases h : logs = []
  · subst h
    rfl
  · simp [computeInsights, h]

/-! ### Claims -/

/-- C1: for every non-empty list of mood records, compute_insights groups the
records by the UTC calendar date of logged_at: the by_day dates are strictly
ascending (day-number order, which is exactly ISO 8601 date-string order),
there is exactly one entry per distinct UTC date present in the input (its
dates are exactly the input dates), and the avg of every entry is the mean of
the mood values of that date rounded to 2 decimals. -/
theorem C1_by_day_grouping (logs : List MoodRecord) (now : ℤ) (h : logs ≠ []) :
    (((computeInsights logs now).by_day.map ByDayEntry.date).Sorted (· < ·))
    ∧ (∀ d : ℤ, d ∈ (computeInsights logs now).by_day.map ByDayEntry.date ↔
        ∃ r ∈ logs, dateOf r = d)
    ∧ (∀ e ∈ (computeInsights logs now).by_day,
        e.avg = meanRounded (moodsOn logs e.date)) := by
  have hbd : (computeInsights logs now).by_day = byDayOf logs := by
    simp [computeInsights, h]
  rw [hbd]
  exact ⟨byDayOf_sorted logs, fun d => byDayOf_mem_dates logs d,
    fun e he => byDayOf_avg logs e he⟩

theorem C1_witness :
    ([⟨4, 0⟩, ⟨2, 86400⟩, ⟨5, 86500⟩] : List MoodRecord) ≠ []
    ∧ (((computeInsights [⟨4, 0⟩, ⟨2, 86400⟩, ⟨5, 86500⟩] 0).by_day.map
        ByDayEntry.date).Sorted (· < ·)) :=
  ⟨by decide, (C1_by_day_grouping [⟨4, 0⟩, ⟨2, 86400⟩, ⟨5, 86500⟩] 0 (by decide)).1⟩

/-- C2: for every non-empty list of mood records, entries equals the number of
records and avg_mood is the arithmetic mean of all mood values rounded to 2
decimal places. -/
theorem C2_entries_avg (logs : List MoodRecord) (now : ℤ) (h : logs ≠ []) :
    (computeInsights logs now).entries = logs.length
    ∧ (computeInsights logs now).avg_mood =
        some (round2 (((logs.map MoodRecord.mood).sum : ℚ) / logs.length)) := by
  constructor <;> simp [computeInsights, h]

theorem C2_witness :
    ([⟨1, 0⟩, ⟨2, 10⟩, ⟨2, 20⟩] : List MoodRecord) ≠ []
    ∧ (computeInsights [⟨1, 0⟩, ⟨2, 10⟩, ⟨2, 20⟩] 0).avg_mood = some (167 / 100)
    ∧ (computeInsights [⟨1, 0⟩, ⟨2, 10⟩, ⟨2, 20⟩] 0).entries = 3 := by
  have h2 := C2_entries_avg [⟨1, 0⟩, ⟨2, 10⟩, ⟨2, 20⟩] 0 (by decide)
  refine ⟨by decide, ?_, h2.1⟩
  rw [h2.2]
  norm_num [round2]

/-- C3: the streak counts consecutive UTC calendar days ending at the UTC
date of now, each having at least one record, stopping at the first missing
date walking backward from today: every day within the streak has a record,
the day right past the streak has none, a record today is required for (and
gives) streak ≥ 1, and a gapless run of records from the date of now back to
now - k days gives streak ≥ k + 1, with equality when the run stops there. -/
theorem C3_streak (logs : List MoodRecord) (now : ℤ) (k : ℕ) :
    (∀ i : ℕ, i < (computeInsights logs now).streak →
        ∃ r ∈ logs, dateOf r = todayOf now - i)
    ∧ ¬(∃ r ∈ logs, dateOf r = todayOf now - (computeInsights logs now).streak)
    ∧ (1 ≤ (computeInsights logs now).streak ↔ ∃ r ∈ logs, dateOf r = todayOf now)
    ∧ ((∀ i : ℕ, i ≤ k → ∃ r ∈ logs, dateOf r = todayOf now - i) →
        k + 1 ≤ (computeInsights logs now).streak)
    ∧ ((∀ i : ℕ, i ≤ k → ∃ r ∈ logs, dateOf r = todayOf now - i) →
        ¬(∃ r ∈ logs, dateOf r = todayOf now - (k + 1 : ℕ)) →
        (computeInsights logs now).streak = k + 1) := by
  rw [computeInsights_streak]
  obtain ⟨hmem, hstop⟩ := streakOf_spec logs now
  have memIff : ∀ d : ℤ, d ∈ logs.map dateOf ↔ ∃ r ∈ logs, dateOf r = d :=
    fun d => List.mem_map
  refine ⟨?_, ?_, ?_, ?_, ?_⟩
  · intro i hi
    exact (memIff _).mp (hmem i hi)
  · intro hc
    exact hstop ((memIff _).mpr hc)
  · constructor
    · intro h1
      have h0 := hmem 0 h1
      rw [Nat.cast_zero, sub_zero] at h0
      exact (memIff _).mp h0
    · intro hex
      by_contra hlt
      push_neg at hlt
      have h0 : streakOf logs now = 0 := by omega
      rw [h0] at hstop
      rw [Nat.cast_zero, sub_zero] at hstop
      exact hstop ((memIff _).mpr hex)
  · intro hall
    by_contra hlt
    push_neg at hlt
    exact hstop ((memIff _).mpr (hall (streakOf logs now) (by omega)))
  · intro hall hgap
    have hge : k + 1 ≤ streakOf logs now := by
      by_contra hlt
      push_neg at hlt
      exact hstop ((memIff _).mpr (hall (streakOf logs now) (by omega)))
    rcases Nat.lt_or_ge (k + 1) (streakOf logs now) with hgt | hle2
    · exact absurd ((memIff _).mp (hmem (k + 1) hgt)) hgap
    · omega

theorem C3_witness :
    (computeInsights [⟨3, 0⟩, ⟨4, -86400⟩] 0).streak = 2 :=
  (C3_streak [⟨3, 0⟩, ⟨4, -86400⟩] 0 1).2.2.2.2 (by decide) (by decide)

/-- C4: the suggestion selection evaluates its rules in order, first match
wins: avg_mood null gives catalog items 0 and 1 with the start-routine
reason; else avg_mood < 3 with entries ≥ 3 gives items 0 and 1 with the
low-mood reason; otherwise items 2 and 3 with the recent-logs reason. -/
theorem C4_rule_table (ins : InsightsResult) :
    (ins.avg_mood = none →
      getSuggestions ins =
        { reason := "Suggested to help you start your routine",
          items := SUGGESTION_LIBRARY.take 2, insights := ins })
    ∧ (∀ a : ℚ, ins.avg_mood = some a → a < 3 → 3 ≤ ins.entries →
      getSuggestions ins =
        { reason := "Suggested because your average mood has been low this week",
          items := SUGGESTION_LIBRARY.take 2, insights := ins })
    ∧ (∀ a : ℚ, ins.avg_mood = some a → ¬(a < 3 ∧ 3 ≤ ins.entries) →
      getSuggestions ins =
        { reason := "Suggested based on your recent logs",
          items := (SUGGESTION_LIBRARY.drop 2).take 2, insights := ins }) := by
  refine ⟨?_, ?_, ?_⟩
  · intro h
    simp [getSuggestions, h]
  · intro a h hlt hent
    simp only [getSuggestions, h]
    rw [if_pos (⟨hlt, hent⟩ : a < 3 ∧ 3 ≤ ins.entries)]
    rfl
  · intro a h hn
    simp only [getSuggestions, h]
    rw [if_neg hn]
    rfl

theorem C4_witness :
    (computeInsights ([] : List MoodRecord) 0).avg_mood = none
    ∧ getSuggestions (computeInsights ([] : List MoodRecord) 0) =
      { reason := "Suggested to help you start your routine",
        items := SUGGESTION_LIBRARY.take 2,
        insights := computeInsights ([] : List MoodRecord) 0 } :=
  ⟨rfl, (C4_rule_table (computeInsights ([] : List MoodRecord) 0)).1 rfl⟩

/-- C5: for the empty record set, compute_insights returns avg_mood null,
entries 0, streak 0 and an empty by_day. -/
theorem C5_empty (now : ℤ) :
    computeInsights [] now =
      { avg_mood := none, entries := 0, streak := 0, by_day := [] } := rfl

/-- C6: the insights endpoint summary uses the three-way branch (no logs /
avg_mood < 3 / stable otherwise), and whenever the computed streak is at
least 3 the streak-acknowledgement sentence carrying the literal streak
count is appended to the summary. -/
theorem C6_summary (logs : List MoodRecord) (now : ℤ) :
    ((computeInsights logs now).avg_mood = none →
      (insightsEndpoint logs now).ai_summary =
        ["No logs yet. Start with a 2-minute breathing reset."]
      ∧ (insightsEndpoint logs now).suggested_actions =
        ["Set a daily reminder at a calm time."])
    ∧ (∀ a : ℚ, (computeInsights logs now).avg_mood = some a → a < 3 →
      (insightsEndpoint logs now).ai_summary =
        "Mood has been on the lower side recently." ::
          (if 3 ≤ (computeInsights logs now).streak
            then [streakMsg (computeInsights logs now).streak] else []))
    ∧ (∀ a : ℚ, (computeInsights logs now).avg_mood = some a → ¬a < 3 →
      (insightsEndpoint logs now).ai_summary =
        "You\x27re maintaining a stable mood trend." ::
          (if 3 ≤ (computeInsights logs now).streak
            then [streakMsg (computeInsights logs now).streak] else []))
    ∧ (3 ≤ (computeInsights logs now).streak →
      streakMsg (computeInsights logs now).streak ∈
        (insightsEndpoint logs now).ai_summary) := by
  refine ⟨?_, ?_, ?_, ?_⟩
  · intro h
    constructor <;> simp [insightsEndpoint, h]
  · intro a h hlt
    simp [insightsEndpoint, h, hlt]
  · intro a h hlt
    simp [insightsEndpoint, h, hlt]
  · intro hstreak
    have hne : logs ≠ [] := by
      intro hc
      subst hc
      simp [computeInsights] at hstreak
    have hsome : (computeInsights logs now).avg_mood =
        some (round2 (((logs.map MoodRecord.mood).sum : ℚ) / logs.length)) := by
      simp [computeInsights, hne]
    simp [insightsEndpoint, hsome, hstreak]

theorem C6_witness :
    3 ≤ (computeInsights
        [⟨4, 0⟩, ⟨4, -86400⟩, ⟨5, -172800⟩, ⟨5, -259200⟩, ⟨5, -345600⟩] 0).streak
    ∧ streakMsg (computeInsights
        [⟨4, 0⟩, ⟨4, -86400⟩, ⟨5, -172800⟩, ⟨5, -259200⟩, ⟨5, -345600⟩] 0).streak ∈
      (insightsEndpoint
        [⟨4, 0⟩, ⟨4, -86400⟩, ⟨5, -172800⟩, ⟨5, -259200⟩, ⟨5, -345600⟩] 0).ai_summary :=
  ⟨by decide,
    (C6_summary [⟨4, 0⟩, ⟨4, -86400⟩, ⟨5, -172800⟩, ⟨5, -259200⟩, ⟨5, -345600⟩] 0).2.2.2
      (by decide)⟩

/-- C7: determinism: compute_insights is a pure function, so identical
records and an identical reference instant give identical output, and the
suggestion selection reads only (avg_mood, entries): any two insights
results agreeing on those two fields get the same picks and reason. -/
theorem C7_deterministic (logs : List MoodRecord) (now : ℤ) (i j : InsightsResult)
    (ha : i.avg_mood = j.avg_mood) (he : i.entries = j.entries) :
    computeInsights logs now = computeInsights logs now
    ∧ (getSuggestions i).reason = (getSuggestions j).reason
    ∧ (getSuggestions i).items = (getSuggestions j).items := by
  refine ⟨rfl, ?_⟩
  cases hi : i.avg_mood with
  | none =>
    have hj : j.avg_mood = none := by rw [← ha, hi]
    simp [getSuggestions, hi, hj]
  | some a =>
    have hj : j.avg_mood = some a := by rw [← ha, hi]
    simp only [getSuggestions, hi, hj]
    rw [he]
    by_cases hc : a < 3 ∧ 3 ≤ j.entries
    · rw [if_pos hc, if_pos hc]
      exact ⟨rfl, rfl⟩
    · rw [if_neg hc, if_neg hc]
      exact ⟨rfl, rfl⟩

theorem C7_witness :
    (getSuggestions (computeInsights [] 0)).reason =
      (getSuggestions (computeInsights [] 0)).reason :=
  (C7_deterministic [] 0 (computeInsights [] 0) (computeInsights [] 0) rfl rfl).2.1

/-- C8: the static suggestion catalog is exactly the four fixed entries
breath-2, meditate-5, walk-5 and affirm-1, in that order (it is a plain
constant, never mutated). -/
theorem C8_catalog :
    SUGGESTION_LIBRARY =
      [ { id := "breath-2", title := "Try this quick breathing reset",
          duration := 2, type := "breathing" },
        { id := "meditate-5", title := "Mini meditation",
          duration := 5, type := "meditation" },
        { id := "walk-5", title := "Micro-walk",
          duration := 5, type := "walk" },
        { id := "affirm-1", title := "Affirmation card",
          duration := 1, type := "affirmation" } ]
    ∧ SUGGESTION_LIBRARY.length = 4 :=
  ⟨rfl, rfl⟩

/-- C9: the range parameter maps "7d" to a 7-day window and every other
string, including values outside the documented set, to 30 days; the
mapping is total, so no validation error is possible. -/
theorem C9_window (r : String) :
    windowDays "7d" = 7 ∧ (r ≠ "7d" → windowDays r = 30) := by
  refine ⟨rfl, fun h => ?_⟩
  simp [windowDays, h]

theorem C9_witness : windowDays "90d" = 30 :=
  (C9_window "90d").2 (by decide)

/-- C10: avg_mood is null exactly when entries is 0, and for non-empty
input by_day is non-empty and the streak never exceeds the number of
by_day entries. -/
theorem C10_invariants (logs : List MoodRecord) (now : ℤ) :
    ((computeInsights logs now).avg_mood = none ↔ (computeInsights logs now).entries = 0)
    ∧ (logs ≠ [] → (computeInsights logs now).by_day ≠ []
        ∧ (computeInsights logs now).streak ≤ (computeInsights logs now).by_day.length) := by
  by_cases h : logs = []
  · subst h
    exact ⟨by simp [computeInsights], fun hc => absurd rfl hc⟩
  · constructor
    · constructor
      · intro hnone
        exfalso
        simp [computeInsights, h] at hnone
      · intro hent
        exfalso
        simp [computeInsights, h] at hent
    · intro _
      have hbd : (computeInsights logs now).by_day = byDayOf logs := by
        simp [computeInsights, h]
      have hstreak : (computeInsights logs now).streak = streakOf logs now :=
        computeInsights_streak logs now
      have hlen : (byDayOf logs).length = (logs.map dateOf).dedup.length :=
        byDayOf_length logs
      have hle : streakOf logs now ≤ (logs.map dateOf).dedup.length :=
        streakAux_le (logs.map dateOf) (logs.map dateOf).dedup.length (todayOf now)
      have hmapne : logs.map dateOf ≠ [] := by
        simpa [List.map_eq_nil_iff] using h
      have hdedupne : (logs.map dateOf).dedup ≠ [] := by
        rw [ne_eq, List.dedup_eq_nil]
        exact hmapne
      constructor
      · rw [hbd]
        intro hc
        rw [hc] at hlen
        exact hdedupne (List.length_eq_zero.mp hlen.symm)
      · rw [hbd, hstreak, hlen]
        exact hle

theorem C10_witness :
    ([⟨3, 0⟩] : List MoodRecord) ≠ []
    ∧ (computeInsights [⟨3, 0⟩] 0).streak ≤ (computeInsights [⟨3, 0⟩] 0).by_day.length :=
  ⟨by decide, ((C10_invariants [⟨3, 0⟩] 0).2 (by decide)).2⟩
